import Mathlib

/-!
Verification of the server-analytics repository: a shallow embedding of the
stateless metrics processor, the upstream poller's batch selection, and the
file-backed relay cache (src/graphana-dashboard/dashboard_server.py and
src/monitor/web_server.py), together with proofs of the specification claims.

Python dicts of string keys are embedded as association lists in which an
insert replaces the binding of an existing key in place.  Numeric values
(timestamps and metric readings) are embedded as rationals.
-/

namespace ServerAnalytics

/-- Lookup in an association list: the value bound to the first occurrence of
the key, as Python `d.get(k)`. -/
def alget {α : Type} : List (String × α) → String → Option α
  | [], _ => none
  | (k1, v) :: rest, k => if k1 = k then some v else alget rest k

/-- Lookup with a default, as Python `d.get(k, dflt)`. -/
def algetD {α : Type} (l : List (String × α)) (k : String) (dflt : α) : α :=
  (alget l k).getD dflt

/-- Insert into an association list, replacing the binding of the key when it
is already present (Python `d[k] = v`). -/
def alinsert {α : Type} : List (String × α) → String → α → List (String × α)
  | [], k, v => [(k, v)]
  | (k1, v1) :: rest, k, v =>
    if k1 = k then (k, v) :: rest else (k1, v1) :: alinsert rest k v

/-- A metric group: a mapping of field name to numeric value, e.g. the value
of the `disk` key of a snapshot dict. -/
abbrev Fields := List (String × Rat)

/-- A snapshot record as handled by the dashboard server: an optional
top-level `ts` timestamp plus nested metric groups (`cpu`, `disk`,
`network`, ...).  `ts = none` models a dict with no `ts` key. -/
structure Sample where
  ts : Option Rat
  groups : List (String × Fields)
deriving DecidableEq

/-- `s.get(g)` for a group key. -/
def Sample.getGroup (s : Sample) (g : String) : Option Fields :=
  alget s.groups g

/-- `s.get(g, {})` for a group key. -/
def Sample.getGroupD (s : Sample) (g : String) : Fields :=
  (s.getGroup g).getD []

/-- `s.get(g, {}).get(f, dflt)`: a field read through its group with a
default. -/
def Sample.getField (s : Sample) (g f : String) (dflt : Rat) : Rat :=
  algetD (s.getGroupD g) f dflt

/-- `if g not in s: s[g] = {}` — make sure the group key exists. -/
def Sample.ensureGroup (s : Sample) (g : String) : Sample :=
  match alget s.groups g with
  | some _ => s
  | none => { s with groups := alinsert s.groups g [] }

/-- `s[g][f] = v` (the group is present at every call site, having been
ensured; on an absent group this writes into a fresh empty group, which is
what the ensured call sites make of it anyway). -/
def Sample.setField (s : Sample) (g f : String) (v : Rat) : Sample :=
  { s with groups := alinsert s.groups g (alinsert (s.getGroupD g) f v) }

/-- The state of `StatelessMetricsProcessor` (dashboard_server.py lines
28-34): the latest accepted sample, its timestamp, the counter values and
timestamp of the previous accepted sample, and the staleness threshold. -/
structure Processor where
  latest_sample : Option Sample
  last_seen_ts : Option Rat
  last_counter_values : List (String × Rat)
  last_counter_ts : Option Rat
  max_age_seconds : Rat
deriving DecidableEq

/-- `StatelessMetricsProcessor.__init__` (lines 28-34). -/
def initProcessor (max_age_seconds : Rat) : Processor :=
  { latest_sample := none
    last_seen_ts := none
    last_counter_values := []
    last_counter_ts := none
    max_age_seconds := max_age_seconds }

/-- The accepted branch of `update` (lines 52-67): capture the previous
sample's counter values and timestamp when a previous sample exists, then
store the new sample and its timestamp. -/
def Processor.accept (p : Processor) (sample : Sample) (sample_ts : Rat) : Processor :=
  let p1 :=
    match p.latest_sample with
    | some prev =>
      { p with
        last_counter_values :=
          [("disk.read_sectors", prev.getField "disk" "read_sectors" 0),
           ("disk.write_sectors", prev.getField "disk" "write_sectors" 0),
           ("network.rx_bytes", prev.getField "network" "rx_bytes" 0),
           ("network.tx_bytes", prev.getField "network" "tx_bytes" 0)]
        last_counter_ts := p.last_seen_ts }
    | none => p
  { p1 with latest_sample := some sample, last_seen_ts := some sample_ts }

/-- `StatelessMetricsProcessor.update` (lines 36-67).  Returns the accepted
flag together with the state after the call. -/
def Processor.update (p : Processor) (sample : Sample) : Bool × Processor :=
  match sample.ts with
  | none => (false, p)
  | some sample_ts =>
    match p.last_seen_ts with
    | some last =>
      if sample_ts ≤ last then (false, p)
      else (true, p.accept sample sample_ts)
    | none => (true, p.accept sample sample_ts)

/-- The zero-rate fallback of `get_latest_with_derived` (lines 107-125),
shared by the invalid-time-delta branch and the no-prior-data branch. -/
def zeroRates (output : Sample) : Sample :=
  let output := output.ensureGroup "disk"
  let output := output.setField "disk" "read_sectors_rate" 0
  let output := output.setField "disk" "write_sectors_rate" 0
  let output := output.ensureGroup "network"
  let output := output.setField "network" "rx_bytes_rate" 0
  let output := output.setField "network" "tx_bytes_rate" 0
  output

/-- `StatelessMetricsProcessor.get_latest_with_derived` (lines 69-127). -/
def Processor.get_latest_with_derived (p : Processor) : Option Sample :=
  match p.latest_sample with
  | none => none
  | some latest =>
    let output := latest
    match p.last_counter_ts, p.last_seen_ts with
    | some last_counter_ts, some last_seen_ts =>
      let time_delta := last_seen_ts - last_counter_ts
      if time_delta > 0 then
        let output := output.ensureGroup "disk"
        let current_read := output.getField "disk" "read_sectors" 0
        let current_write := output.getField "disk" "write_sectors" 0
        let prev_read := algetD p.last_counter_values "disk.read_sectors" 0
        let prev_write := algetD p.last_counter_values "disk.write_sectors" 0
        let output := output.setField "disk" "read_sectors_rate"
          ((current_read - prev_read) / time_delta)
        let output := output.setField "disk" "write_sectors_rate"
          ((current_write - prev_write) / time_delta)
        let output := output.ensureGroup "network"
        let current_rx := output.getField "network" "rx_bytes" 0
        let current_tx := output.getField "network" "tx_bytes" 0
        let prev_rx := algetD p.last_counter_values "network.rx_bytes" 0
        let prev_tx := algetD p.last_counter_values "network.tx_bytes" 0
        let output := output.setField "network" "rx_bytes_rate"
          ((current_rx - prev_rx) / time_delta)
        let output := output.setField "network" "tx_bytes_rate"
          ((current_tx - prev_tx) / time_delta)
        some output
      else
        some (zeroRates output)
    | _, _ => some (zeroRates output)

/-- Result shape of `get_health_status`: `{"status": ..., "last_seen_ts": ...}`. -/
structure HealthStatus where
  status : String
  last_seen_ts : Option Rat
deriving DecidableEq

/-- `StatelessMetricsProcessor.get_health_status` (lines 129-144).  The wall
clock read `time.time()` is passed in as `current_time`. -/
def Processor.get_health_status (p : Processor) (current_time : Rat) : HealthStatus :=
  match p.last_seen_ts with
  | none => { status := "stale", last_seen_ts := none }
  | some ts =>
    let age_seconds := current_time - ts
    if age_seconds > p.max_age_seconds then
      { status := "stale", last_seen_ts := some ts }
    else
      { status := "ok", last_seen_ts := some ts }

/-- `DashboardHandler._serve_metrics` (lines 175-191): the HTTP status code
and JSON body of a `GET /metrics` response. -/
def serve_metrics (p : Processor) : Nat × Option Sample :=
  match p.get_latest_with_derived with
  | none => (503, none)
  | some sample => (200, some sample)

/-- The sort key of the batch selection in `poll_upstream_metrics` (line
528): `x.get('ts', 0)`. -/
def tsKey (x : Sample) : Rat :=
  x.ts.getD 0

/-- `max(metrics_data, key=...)` on a list of samples (line 528): Python's
`max` keeps the first element whose key is maximal, replacing the running
best only on a strictly greater key. -/
def selectNewest : List Sample → Option Sample
  | [] => none
  | x :: xs => some (xs.foldl (fun best y => if tsKey best < tsKey y then y else best) x)

/-- One cycle of the array branch of `poll_upstream_metrics` (lines
525-535): a non-empty array forwards the newest sample to `update`; an
empty array leaves the processor untouched. -/
def poll_cycle_array (p : Processor) (metrics_data : List Sample) : Processor :=
  match selectNewest metrics_data with
  | none => p
  | some newest => (p.update newest).2

/-- Apply a sequence of `update` calls, keeping only the state. -/
def runUpdates (p : Processor) (samples : List Sample) : Processor :=
  samples.foldl (fun q s => (q.update s).2) p

/-- A state is reachable when some sequence of `update` calls produces it
from a freshly constructed processor. -/
def Reachable (p : Processor) : Prop :=
  ∃ max_age samples, p = runUpdates (initProcessor max_age) samples

/-! ### File-backed relay (src/monitor/web_server.py) -/

/-- One line of the append-only metrics file as `load_metrics` classifies it
(lines 36-44): blank after stripping, stripped but failing `json.loads`, or
parsing to a metric record.  Metric records carry the same snapshot shape the
dashboard consumes, per the data model. -/
inductive FileLine
  | blank
  | malformed
  | valid (m : Sample)
deriving DecidableEq

/-- The initial value `latest = {}` of `load_metrics` (line 31) and of the
module-level `latest_metric_cache` (line 20): the empty JSON object. -/
def emptyObj : Sample := { ts := none, groups := [] }

/-- The per-line step of the `load_metrics` loop (web_server.py lines
36-44): a parsed line is appended to `metrics` and becomes `latest`; blank
and malformed lines leave both untouched. -/
def loadStep (acc : List Sample × Sample) (ln : FileLine) : List Sample × Sample :=
  match ln with
  | .valid m => (acc.1 ++ [m], m)
  | _ => acc

/-- `load_metrics` (web_server.py lines 25-52) on the file contents: `none`
models a missing file.  Returns the `metrics` list and the `latest` cache
value after one refresh; the caches are replaced wholesale. -/
def load_metrics (file : Option (List FileLine)) : List Sample × Sample :=
  match file with
  | none => ([], emptyObj)
  | some lines => lines.foldl loadStep ([], emptyObj)

/-- The value of the last parseable line of the file, when any line parses:
the notion "last successfully parsed line" used by the claims. -/
def lastValid : List FileLine → Option Sample
  | [] => none
  | ln :: rest =>
    match lastValid rest with
    | some m => some m
    | none =>
      match ln with
      | .valid m => some m
      | _ => none

/-- `MetricsHandler.serve_latest_metric` (web_server.py lines 93-115): a 200
response whose JSON body is a copy of the cached latest metric. -/
def serve_latest_metric (latest_metric_cache : Sample) : Nat × Sample :=
  (200, latest_metric_cache)

/-! ### Association-list read-over-write lemmas -/

theorem alget_alinsert_self {α : Type} (l : List (String × α)) (k : String) (v : α) :
    alget (alinsert l k v) k = some v := by
  induction l with
  | nil => simp [alget, alinsert]
  | cons hd tl ih =>
    obtain ⟨k1, v1⟩ := hd
    by_cases hk : k1 = k
    · simp [alget, alinsert, hk]
    · simp [alget, alinsert, hk, ih]

theorem alget_alinsert_ne {α : Type} (l : List (String × α)) (k k' : String) (v : α)
    (h : k ≠ k') : alget (alinsert l k v) k' = alget l k' := by
  induction l with
  | nil => simp [alget, alinsert, h]
  | cons hd tl ih =>
    obtain ⟨k1, v1⟩ := hd
    by_cases hk : k1 = k
    · subst hk
      simp [alget, alinsert, h]
    · simp [alget, alinsert, hk, ih]

theorem getGroup_setField_self (s : Sample) (g f : String) (v : Rat) :
    (s.setField g f v).getGroup g = some (alinsert (s.getGroupD g) f v) := by
  simp [Sample.setField, Sample.getGroup, alget_alinsert_self]

theorem getGroup_setField_ne (s : Sample) (g g' f : String) (v : Rat) (h : g ≠ g') :
    (s.setField g f v).getGroup g' = s.getGroup g' := by
  simp [Sample.setField, Sample.getGroup, alget_alinsert_ne _ _ _ _ h]

theorem getGroup_ensureGroup_ne (s : Sample) (g g' : String) (h : g ≠ g') :
    (s.ensureGroup g).getGroup g' = s.getGroup g' := by
  unfold Sample.ensureGroup
  cases hg : alget s.groups g with
  | some fs => rfl
  | none => simp [Sample.getGroup, alget_alinsert_ne _ _ _ _ h]

theorem getGroupD_ensureGroup_self (s : Sample) (g : String) :
    (s.ensureGroup g).getGroupD g = s.getGroupD g := by
  unfold Sample.ensureGroup
  cases hg : alget s.groups g with
  | some fs => rfl
  | none => simp [Sample.getGroupD, Sample.getGroup, alget_alinsert_self, hg]

theorem getGroupD_ensureGroup_ne (s : Sample) (g g' : String) (h : g ≠ g') :
    (s.ensureGroup g).getGroupD g' = s.getGroupD g' := by
  simp [Sample.getGroupD, getGroup_ensureGroup_ne _ _ _ h]

theorem getField_ensureGroup (s : Sample) (g g' f : String) (d : Rat) :
    (s.ensureGroup g).getField g' f d = s.getField g' f d := by
  by_cases h : g = g'
  · subst h
    simp [Sample.getField, getGroupD_ensureGroup_self]
  · simp [Sample.getField, getGroupD_ensureGroup_ne _ _ _ h]

theorem getField_setField_ne_group (s : Sample) (g g' f f' : String) (v : Rat) (d : Rat)
    (h : g ≠ g') : (s.setField g f v).getField g' f' d = s.getField g' f' d := by
  simp [Sample.getField, Sample.getGroupD, getGroup_setField_ne _ _ _ _ _ h]

theorem getField_setField_ne_field (s : Sample) (g f f' : String) (v : Rat) (d : Rat)
    (h : f ≠ f') : (s.setField g f v).getField g f' d = s.getField g f' d := by
  simp [Sample.getField, Sample.getGroupD, getGroup_setField_self, algetD,
    alget_alinsert_ne _ _ _ _ h]

theorem ts_ensureGroup (s : Sample) (g : String) : (s.ensureGroup g).ts = s.ts := by
  unfold Sample.ensureGroup
  cases alget s.groups g <;> rfl

theorem ts_setField (s : Sample) (g f : String) (v : Rat) :
    (s.setField g f v).ts = s.ts := rfl

/-! ### Update branch lemmas and the reachable-state invariant -/

theorem update_false_frame (p : Processor) (s : Sample) (h : (p.update s).1 = false) :
    (p.update s).2 = p := by
  unfold Processor.update at *
  cases hst : s.ts with
  | none => simp [hst]
  | some t =>
    cases hls : p.last_seen_ts with
    | none => simp [hst, hls] at h
    | some l =>
      by_cases hle : t ≤ l
      · simp [hst, hls, hle]
      · simp [hst, hls, hle] at h

theorem update_true_shape (p : Processor) (s : Sample) (h : (p.update s).1 = true) :
    ∃ t, s.ts = some t ∧ (p.update s).2 = p.accept s t ∧
      (∀ l, p.last_seen_ts = some l → l < t) := by
  unfold Processor.update at *
  cases hst : s.ts with
  | none => simp [hst] at h
  | some t =>
    refine ⟨t, rfl, ?_⟩
    cases hls : p.last_seen_ts with
    | none => simp [hst, hls]
    | some l =>
      by_cases hle : t ≤ l
      · simp [hst, hls, hle] at h
      · simp [hst, hls, hle]
        exact lt_of_not_le hle

theorem accept_latest (p : Processor) (s : Sample) (t : Rat) :
    (p.accept s t).latest_sample = some s ∧ (p.accept s t).last_seen_ts = some t := by
  unfold Processor.accept
  cases p.latest_sample <;> exact ⟨rfl, rfl⟩

/-- The state invariant maintained by every `update` call: the stored
timestamp mirrors the stored sample, a processor that never accepted holds
no prior counter data, and any prior counter timestamp lies strictly before
the latest timestamp. -/
def GoodState (p : Processor) : Prop :=
  (∀ s, p.latest_sample = some s → ∃ t, s.ts = some t ∧ p.last_seen_ts = some t) ∧
  (p.latest_sample = none →
    p.last_seen_ts = none ∧ p.last_counter_values = [] ∧ p.last_counter_ts = none) ∧
  (∀ t, p.last_counter_ts = some t → ∃ l, p.last_seen_ts = some l ∧ t < l)

theorem goodState_init (m : Rat) : GoodState (initProcessor m) := by
  refine ⟨?_, ?_, ?_⟩ <;> simp [initProcessor]

theorem goodState_update (p : Processor) (s : Sample) (hp : GoodState p) :
    GoodState ((p.update s).2) := by
  obtain ⟨h1, h2, h3⟩ := hp
  cases hb : (p.update s).1 with
  | false => rw [update_false_frame p s hb]; exact ⟨h1, h2, h3⟩
  | true =>
    obtain ⟨t, hst, hq, hgt⟩ := update_true_shape p s hb
    rw [hq]
    obtain ⟨hql, hqt⟩ := accept_latest p s t
    cases hprev : p.latest_sample with
    | none =>
      obtain ⟨hls, hcv, hct⟩ := h2 hprev
      refine ⟨?_, ?_, ?_⟩
      · intro s1 hs1
        rw [hql] at hs1
        obtain rfl : s = s1 := Option.some.inj hs1
        exact ⟨t, hst, hqt⟩
      · intro hcontra
        rw [hql] at hcontra
        exact absurd hcontra (by simp)
      · intro t0 ht0
        have hct1 : (p.accept s t).last_counter_ts = p.last_counter_ts := by
          simp [Processor.accept, hprev]
        rw [hct1, hct] at ht0
        exact absurd ht0 (by simp)
    | some prev =>
      refine ⟨?_, ?_, ?_⟩
      · intro s1 hs1
        rw [hql] at hs1
        obtain rfl : s = s1 := Option.some.inj hs1
        exact ⟨t, hst, hqt⟩
      · intro hcontra
        rw [hql] at hcontra
        exact absurd hcontra (by simp)
      · intro t0 ht0
        have hct1 : (p.accept s t).last_counter_ts = p.last_seen_ts := by
          simp [Processor.accept, hprev]
        rw [hct1] at ht0
        obtain ⟨t1, _, hls1⟩ := h1 prev hprev
        rw [hls1] at ht0
        obtain rfl : t1 = t0 := Option.some.inj ht0
        exact ⟨t, hqt, hgt t1 hls1⟩


theorem goodState_runUpdates (p : Processor) (l : List Sample) (hp : GoodState p) :
    GoodState (runUpdates p l) := by
  induction l generalizing p with
  | nil => exact hp
  | cons s rest ih => exact ih ((p.update s).2) (goodState_update p s hp)

theorem reachable_goodState (p : Processor) (hp : Reachable p) : GoodState p := by
  obtain ⟨m, l, rfl⟩ := hp
  exact goodState_runUpdates _ _ (goodState_init m)

/-! ### Claim C1 -/

/-- Claim C1: `update(sample)` returns `false` and leaves every field of the
processor state unchanged whenever the sample lacks a timestamp, or a latest
timestamp exists and `sample.timestamp ≤ latestTimestamp`; in particular
`snapshotWithDerived()` is the same before and after such a rejected call. -/
theorem update_rejects_without_state_change (p : Processor) (s : Sample)
    (h : s.ts = none ∨ ∃ t l, s.ts = some t ∧ p.last_seen_ts = some l ∧ t ≤ l) :
    p.update s = (false, p) ∧
    ((p.update s).2).get_latest_with_derived = p.get_latest_with_derived := by
  have hupd : p.update s = (false, p) := by
    rcases h with hnone | ⟨t, l, hst, hls, hle⟩
    · simp [Processor.update, hnone]
    · simp [Processor.update, hst, hls, hle]
  exact ⟨hupd, by rw [hupd]⟩

/-- Witness for C1: a processor whose latest timestamp is 10 rejects a
sample stamped 5 and keeps its state. -/
theorem update_rejects_without_state_change_witness :
    Processor.update ⟨some ⟨some 10, []⟩, some 10, [], none, 30⟩ ⟨some 5, []⟩ =
      (false, ⟨some ⟨some 10, []⟩, some 10, [], none, 30⟩) :=
  (update_rejects_without_state_change ⟨some ⟨some 10, []⟩, some 10, [], none, 30⟩
    ⟨some 5, []⟩ (Or.inr ⟨5, 10, rfl, rfl, by norm_num⟩)).1

/-! ### Concrete example data (the spec's §8 scenario) -/

/-- First snapshot of the spec scenario: `{ts:100, disk:{read_sectors:1000,
write_sectors:500}, network:{rx_bytes:2000, tx_bytes:1000}}`. -/
def exS1 : Sample :=
  ⟨some 100,
   [("disk", [("read_sectors", 1000), ("write_sectors", 500)]),
    ("network", [("rx_bytes", 2000), ("tx_bytes", 1000)])]⟩

/-- Second snapshot of the spec scenario, ten seconds later. -/
def exS2 : Sample :=
  ⟨some 110,
   [("disk", [("read_sectors", 1100), ("write_sectors", 550)]),
    ("network", [("rx_bytes", 2500), ("tx_bytes", 1300)])]⟩

/-- The processor after accepting both scenario snapshots. -/
def exP2 : Processor := runUpdates (initProcessor 30) [exS1, exS2]

/-! ### Claim C3 -/

/-- Claim C3: after every accepted `update(sample)` on a reachable state the
latest snapshot becomes the sample and the latest timestamp its timestamp;
when a previous latest snapshot existed, the prior counter values are
overwritten with exactly that snapshot's four counter fields (absent fields
defaulting to 0) and the prior counter timestamp with that snapshot's
timestamp; after a first accepted sample the prior data remains absent; and
the call returns `true`. -/
theorem update_accept_establishes_state (p : Processor) (s : Sample) (t : Rat)
    (hreach : Reachable p) (hts : s.ts = some t)
    (hadv : ∀ l, p.last_seen_ts = some l → l < t) :
    ∃ q, p.update s = (true, q) ∧
    q.latest_sample = some s ∧ q.last_seen_ts = s.ts ∧
    (∀ prev, p.latest_sample = some prev →
      q.last_counter_values =
        [("disk.read_sectors", prev.getField "disk" "read_sectors" 0),
         ("disk.write_sectors", prev.getField "disk" "write_sectors" 0),
         ("network.rx_bytes", prev.getField "network" "rx_bytes" 0),
         ("network.tx_bytes", prev.getField "network" "tx_bytes" 0)] ∧
      q.last_counter_ts = prev.ts) ∧
    (p.latest_sample = none →
      q.last_counter_values = [] ∧ q.last_counter_ts = none) := by
  obtain ⟨h1, h2, h3⟩ := reachable_goodState p hreach
  have hacc : p.update s = (true, p.accept s t) := by
    cases hls : p.last_seen_ts with
    | none => simp [Processor.update, hts, hls]
    | some l =>
      have hlt := hadv l hls
      simp [Processor.update, hts, hls, not_le.mpr hlt]
  obtain ⟨hql, hqt⟩ := accept_latest p s t
  refine ⟨p.accept s t, hacc, hql, ?_, ?_, ?_⟩
  · rw [hqt, hts]
  · intro prev hprev
    obtain ⟨t1, hpts, hls1⟩ := h1 prev hprev
    constructor
    · simp [Processor.accept, hprev]
    · have : (p.accept s t).last_counter_ts = p.last_seen_ts := by
        simp [Processor.accept, hprev]
      rw [this, hls1, hpts]
  · intro hnone
    obtain ⟨hls, hcv, hct⟩ := h2 hnone
    constructor
    · simp [Processor.accept, hnone, hcv]
    · simp [Processor.accept, hnone, hct]

/-- Witness for C3: accepting the second scenario snapshot stores it,
advances the timestamp to 110, and captures the first snapshot's counters
at timestamp 100. -/
theorem update_accept_establishes_state_witness :
    exP2.latest_sample = some exS2 ∧ exP2.last_seen_ts = exS2.ts ∧
    exP2.last_counter_values =
      [("disk.read_sectors", 1000), ("disk.write_sectors", 500),
       ("network.rx_bytes", 2000), ("network.tx_bytes", 1000)] ∧
    exP2.last_counter_ts = some 100 := by
  obtain ⟨q, hupd, ha, hb, hc, _⟩ := update_accept_establishes_state
    (runUpdates (initProcessor 30) [exS1]) exS2 110
    ⟨30, [exS1], rfl⟩ rfl
    (by
      intro l hl
      have h100 : (runUpdates (initProcessor 30) [exS1]).last_seen_ts = some 100 := by decide
      rw [h100] at hl
      obtain rfl : (100 : Rat) = l := Option.some.inj hl
      norm_num)
  have hq : exP2 = q := by
    have hstep : exP2 = ((runUpdates (initProcessor 30) [exS1]).update exS2).2 := rfl
    rw [hstep, hupd]
  obtain ⟨hcv, hct⟩ := hc exS1 (by decide)
  rw [hq]
  refine ⟨ha, hb, ?_, ?_⟩
  · rw [hcv]
    simp [exS1, Sample.getField, Sample.getGroupD, Sample.getGroup, algetD, alget]
  · rw [hct]; rfl

/-! ### Claim C9 -/

/-- Claim C9: in every reachable processor state, a present prior counter
timestamp is strictly below the latest timestamp, so the time delta used by
`get_latest_with_derived` is strictly positive and its `Δt ≤ 0` zero-rate
branch can never be taken. -/
theorem reachable_prior_ts_lt_latest (p : Processor) (hreach : Reachable p)
    (t : Rat) (h : p.last_counter_ts = some t) :
    ∃ l, p.last_seen_ts = some l ∧ t < l ∧ 0 < l - t := by
  obtain ⟨_, _, h3⟩ := reachable_goodState p hreach
  obtain ⟨l, hl, hlt⟩ := h3 t h
  exact ⟨l, hl, hlt, sub_pos.mpr hlt⟩

/-- Witness for C9: the two-snapshot scenario state has prior timestamp 100
strictly below some latest timestamp. -/
theorem reachable_prior_ts_lt_latest_witness :
    ∃ l, exP2.last_seen_ts = some l ∧ (100 : Rat) < l ∧ 0 < l - 100 :=
  reachable_prior_ts_lt_latest exP2 ⟨30, [exS1, exS2], rfl⟩ 100 (by decide)

/-! ### Claim C4 -/

/-- Claim C4: `healthStatus()` is `{status: "stale", lastSeenTimestamp:
absent}` when nothing has been accepted; otherwise with age `current − latest`
it reports "stale" exactly when the age exceeds `maxAgeSeconds`, "ok"
otherwise, and always carries the latest timestamp. -/
theorem get_health_status_spec (p : Processor) (current_time : Rat) :
    (p.last_seen_ts = none →
      p.get_health_status current_time = ⟨"stale", none⟩) ∧
    (∀ ts, p.last_seen_ts = some ts →
      p.get_health_status current_time =
        ⟨if current_time - ts > p.max_age_seconds then "stale" else "ok", some ts⟩) := by
  constructor
  · intro h
    simp [Processor.get_health_status, h]
  · intro ts h
    simp only [Processor.get_health_status, h]
    by_cases hage : current_time - ts > p.max_age_seconds
    · rw [if_pos hage, if_pos hage]
    · rw [if_neg hage, if_neg hage]

/-- Witness for C4: with threshold 30 and last acceptance at 1000, the
status is "ok" at wall clock 1025 and "stale" at 1040. -/
theorem get_health_status_spec_witness :
    Processor.get_health_status ⟨none, some 1000, [], none, 30⟩ 1025 = ⟨"ok", some 1000⟩ ∧
    Processor.get_health_status ⟨none, some 1000, [], none, 30⟩ 1040 = ⟨"stale", some 1000⟩ := by
  constructor
  · rw [(get_health_status_spec ⟨none, some 1000, [], none, 30⟩ 1025).2 1000 rfl]
    norm_num
  · rw [(get_health_status_spec ⟨none, some 1000, [], none, 30⟩ 1040).2 1000 rfl]
    norm_num

/-! ### Claim C5 -/

/-- Whether any call in a sequence of `update` calls was accepted. -/
def anyAccepted : Processor → List Sample → Bool
  | _, [] => false
  | p, s :: rest => (p.update s).1 || anyAccepted (p.update s).2 rest

theorem get_latest_none_iff (p : Processor) :
    p.get_latest_with_derived = none ↔ p.latest_sample = none := by
  cases hl : p.latest_sample with
  | none => simp [Processor.get_latest_with_derived, hl]
  | some latest =>
    simp only [Processor.get_latest_with_derived, hl]
    cases p.last_counter_ts <;> cases p.last_seen_ts
    · simp
    · simp
    · simp
    · constructor
      · intro h
        split at h <;> (try split at h) <;> simp at h
      · intro h
        simp at h

theorem runUpdates_latest_none_iff (p : Processor) (l : List Sample) :
    (runUpdates p l).latest_sample = none ↔
      p.latest_sample = none ∧ anyAccepted p l = false := by
  induction l generalizing p with
  | nil => simp [runUpdates, anyAccepted]
  | cons s rest ih =>
    have hfold : runUpdates p (s :: rest) = runUpdates ((p.update s).2) rest := rfl
    rw [hfold, ih]
    cases hb : (p.update s).1 with
    | false =>
      have hframe := update_false_frame p s hb
      rw [hframe]
      simp [anyAccepted, hb, hframe]
    | true =>
      obtain ⟨t, _, hq, _⟩ := update_true_shape p s hb
      constructor
      · rintro ⟨hnone, _⟩
        rw [hq, (accept_latest p s t).1] at hnone
        exact absurd hnone (by simp)
      · rintro ⟨_, hacc⟩
        simp [anyAccepted, hb] at hacc

/-- Claim C5: `snapshotWithDerived()` is absent exactly when no sample of
the whole update history was accepted, and `GET /metrics` answers 503
exactly in that case, otherwise 200 with the `snapshotWithDerived()` value
as body. -/
theorem metrics_absent_iff_never_accepted (max_age : Rat) (l : List Sample) :
    (Processor.get_latest_with_derived (runUpdates (initProcessor max_age) l) = none ↔
      anyAccepted (initProcessor max_age) l = false) ∧
    (serve_metrics (runUpdates (initProcessor max_age) l) = (503, none) ↔
      Processor.get_latest_with_derived (runUpdates (initProcessor max_age) l) = none) ∧
    (∀ s, Processor.get_latest_with_derived (runUpdates (initProcessor max_age) l) = some s →
      serve_metrics (runUpdates (initProcessor max_age) l) = (200, some s)) := by
  refine ⟨?_, ?_, ?_⟩
  · rw [get_latest_none_iff, runUpdates_latest_none_iff]
    simp [initProcessor]
  · unfold serve_metrics
    cases h : Processor.get_latest_with_derived (runUpdates (initProcessor max_age) l) <;> simp
  · intro s h
    simp [serve_metrics, h]

/-- Witness for C5: with no samples ever submitted `/metrics` answers 503,
and after the two scenario snapshots it answers 200 with the derived
snapshot. -/
theorem metrics_absent_iff_never_accepted_witness :
    serve_metrics (runUpdates (initProcessor 30) []) = (503, none) ∧
    (∀ s, Processor.get_latest_with_derived exP2 = some s →
      serve_metrics exP2 = (200, some s)) := by
  constructor
  · have h := metrics_absent_iff_never_accepted 30 []
    exact h.2.1.mpr (h.1.mpr rfl)
  · exact (metrics_absent_iff_never_accepted 30 [exS1, exS2]).2.2

/-! ### Claim C6 -/

/-- The comparison step of `max(..., key=lambda x: x.get('ts', 0) ...)`:
Python's `max` replaces the running best only on a strictly greater key, so
the first maximal element wins ties. -/
def pickNewer (best y : Sample) : Sample :=
  if tsKey best < tsKey y then y else best

theorem selectNewest_eq_foldl (x : Sample) (xs : List Sample) :
    selectNewest (x :: xs) = some (xs.foldl pickNewer x) := rfl

theorem pickNewer_left_le (b y : Sample) : tsKey b ≤ tsKey (pickNewer b y) := by
  unfold pickNewer
  split
  · exact le_of_lt (by assumption)
  · exact le_refl _

theorem pickNewer_right_le (b y : Sample) : tsKey y ≤ tsKey (pickNewer b y) := by
  unfold pickNewer
  split
  · exact le_refl _
  · exact le_of_not_lt (by assumption)

theorem pickNewer_eq_or (b y : Sample) : pickNewer b y = b ∨ pickNewer b y = y := by
  unfold pickNewer
  split
  · exact Or.inr rfl
  · exact Or.inl rfl

theorem foldl_pickNewer_spec (xs : List Sample) (acc : Sample) :
    (xs.foldl pickNewer acc = acc ∨ xs.foldl pickNewer acc ∈ xs) ∧
    tsKey acc ≤ tsKey (xs.foldl pickNewer acc) ∧
    ∀ y ∈ xs, tsKey y ≤ tsKey (xs.foldl pickNewer acc) := by
  induction xs generalizing acc with
  | nil => simp
  | cons z zs ih =>
    obtain ⟨hmem, hacc, hall⟩ := ih (pickNewer acc z)
    have hfold : (z :: zs).foldl pickNewer acc = zs.foldl pickNewer (pickNewer acc z) := rfl
    refine ⟨?_, ?_, ?_⟩
    · rw [hfold]
      rcases hmem with h | h
      · rcases pickNewer_eq_or acc z with h2 | h2
        · exact Or.inl (h.trans h2)
        · exact Or.inr (by rw [h, h2]; exact List.mem_cons_self z zs)
      · exact Or.inr (List.mem_cons_of_mem z h)
    · rw [hfold]
      exact (pickNewer_left_le acc z).trans hacc
    · intro y hy
      rw [hfold]
      rcases List.mem_cons.mp hy with rfl | hy2
      · exact (pickNewer_right_le acc y).trans hacc
      · exact hall y hy2

/-- Claim C6: on a non-empty array the poller's batch path forwards to
`update` an element of the array whose `ts` key (absent keys counting as 0,
as the source's sort key does) is maximal over the array, whatever its
position; an empty array skips the cycle without touching the processor. -/
theorem poller_forwards_max_timestamp (p : Processor) (l : List Sample) :
    (l ≠ [] → ∃ m, selectNewest l = some m ∧ m ∈ l ∧
      (∀ y ∈ l, tsKey y ≤ tsKey m) ∧
      ((∀ y ∈ l, y.ts ≠ none) →
        ∃ tm, m.ts = some tm ∧ ∀ y ∈ l, ∀ ty, y.ts = some ty → ty ≤ tm) ∧
      poll_cycle_array p l = (p.update m).2) ∧
    poll_cycle_array p [] = p := by
  constructor
  · intro hne
    match l with
    | [] => exact absurd rfl hne
    | x :: xs =>
      obtain ⟨hmem, hacc, hall⟩ := foldl_pickNewer_spec xs x
      have hmax : ∀ y ∈ x :: xs, tsKey y ≤ tsKey (xs.foldl pickNewer x) := by
        intro y hy
        rcases List.mem_cons.mp hy with rfl | hy2
        · exact hacc
        · exact hall y hy2
      have hmem2 : xs.foldl pickNewer x ∈ x :: xs := by
        rcases hmem with h | h
        · rw [h]; exact List.mem_cons_self x xs
        · exact List.mem_cons_of_mem x h
      refine ⟨xs.foldl pickNewer x, rfl, hmem2, hmax, ?_, rfl⟩
      intro hts
      obtain ⟨tm, htm⟩ := Option.ne_none_iff_exists.mp (hts _ hmem2)
      refine ⟨tm, htm.symm, ?_⟩
      intro y hy ty hty
      have := hmax y hy
      rw [tsKey, tsKey, hty, ← htm] at this
      exact this
  · rfl

/-- Witness for C6: on the spec's `[ts:5, ts:9, ts:7]` batch the selected
element dominates every timestamp in the array. -/
theorem poller_forwards_max_timestamp_witness :
    ∃ m, selectNewest [⟨some 5, []⟩, ⟨some 9, []⟩, ⟨some 7, []⟩] = some m ∧
      ∀ y ∈ [(⟨some 5, []⟩ : Sample), ⟨some 9, []⟩, ⟨some 7, []⟩], tsKey y ≤ tsKey m := by
  obtain ⟨m, h1, _, h3, _⟩ := (poller_forwards_max_timestamp (initProcessor 30)
    [⟨some 5, []⟩, ⟨some 9, []⟩, ⟨some 7, []⟩]).1 (by simp)
  exact ⟨m, h1, h3⟩

/-! ### Claim C7 -/

theorem foldl_loadStep_snd (lines : List FileLine) (acc : List Sample × Sample) :
    (lines.foldl loadStep acc).2 = (lastValid lines).getD acc.2 := by
  induction lines generalizing acc with
  | nil => rfl
  | cons ln rest ih =>
    have hfold : (ln :: rest).foldl loadStep acc = rest.foldl loadStep (loadStep acc ln) := rfl
    rw [hfold, ih]
    cases ln with
    | blank =>
      cases h : lastValid rest <;> simp [lastValid, loadStep, h]
    | malformed =>
      cases h : lastValid rest <;> simp [lastValid, loadStep, h]
    | valid m =>
      cases h : lastValid rest <;> simp [lastValid, loadStep, h]

/-- Claim C7: after a refresh the cached latest metric is the value of the
last parseable line of the metrics file (unparseable lines are skipped), a
missing file leaves the cache the empty object, and `GET /latest` answers
200 with exactly the cached value — the empty object when no line ever
parsed. -/
theorem relay_latest_cache_spec (lines : List FileLine) :
    (load_metrics (some lines)).2 = (lastValid lines).getD emptyObj ∧
    load_metrics none = ([], emptyObj) ∧
    (∀ cache, serve_latest_metric cache = (200, cache)) ∧
    (lastValid lines = none → (load_metrics (some lines)).2 = emptyObj) := by
  refine ⟨?_, rfl, fun cache => rfl, ?_⟩
  · exact foldl_loadStep_snd lines ([], emptyObj)
  · intro h
    have := foldl_loadStep_snd lines ([], emptyObj)
    rw [h] at this
    exact this

/-- Witness for C7: a file whose parseable lines end with the second
scenario snapshot caches that snapshot, and a file of only malformed lines
caches the empty object. -/
theorem relay_latest_cache_spec_witness :
    (load_metrics (some [.valid exS1, .malformed, .valid exS2, .blank])).2 = exS2 ∧
    (load_metrics (some [.malformed, .blank])).2 = emptyObj ∧
    serve_latest_metric exS2 = (200, exS2) := by
  refine ⟨?_, ?_, (relay_latest_cache_spec []).2.2.1 exS2⟩
  · rw [(relay_latest_cache_spec [.valid exS1, .malformed, .valid exS2, .blank]).1]
    rfl
  · exact (relay_latest_cache_spec [.malformed, .blank]).2.2.2 rfl

/-! ### Derived-rate computation (claims C2 and C10) -/

/-- The value stored under field `f` of group `g` of a result object, read
through the possibly-absent group. -/
def rateOf (s : Sample) (g f : String) : Option Rat :=
  alget (s.getGroupD g) f

theorem rateOf_setField_self (s : Sample) (g f : String) (v : Rat) :
    rateOf (s.setField g f v) g f = some v := by
  simp [rateOf, Sample.getGroupD, getGroup_setField_self, alget_alinsert_self]

theorem rateOf_setField_ne_field (s : Sample) (g f f' : String) (v : Rat) (h : f ≠ f') :
    rateOf (s.setField g f v) g f' = rateOf s g f' := by
  simp [rateOf, Sample.getGroupD, getGroup_setField_self, alget_alinsert_ne _ _ _ _ h]

theorem rateOf_setField_ne_group (s : Sample) (g g' f f' : String) (v : Rat) (h : g ≠ g') :
    rateOf (s.setField g f v) g' f' = rateOf s g' f' := by
  simp [rateOf, Sample.getGroupD, getGroup_setField_ne _ _ _ _ _ h]

theorem rateOf_ensureGroup_ne (s : Sample) (g g' f : String) (h : g ≠ g') :
    rateOf (s.ensureGroup g) g' f = rateOf s g' f := by
  simp [rateOf, getGroupD_ensureGroup_ne _ _ _ h]

theorem zeroRates_rates (s : Sample) :
    rateOf (zeroRates s) "disk" "read_sectors_rate" = some 0 ∧
    rateOf (zeroRates s) "disk" "write_sectors_rate" = some 0 ∧
    rateOf (zeroRates s) "network" "rx_bytes_rate" = some 0 ∧
    rateOf (zeroRates s) "network" "tx_bytes_rate" = some 0 := by
  refine ⟨?_, ?_, ?_, ?_⟩ <;>
    simp [zeroRates, rateOf_setField_self, rateOf_setField_ne_field,
      rateOf_setField_ne_group, rateOf_ensureGroup_ne]

/-- In the positive-delta branch, `get_latest_with_derived` produces a
result whose four rate fields carry exactly the difference quotients of the
counters against the prior values. -/
theorem get_latest_formula_pos (p : Processor) (ls : Sample) (t0 t1 : Rat)
    (hls : p.latest_sample = some ls) (hct : p.last_counter_ts = some t0)
    (hst : p.last_seen_ts = some t1) (hdt : t1 - t0 > 0) :
    ∃ out, p.get_latest_with_derived = some out ∧
      rateOf out "disk" "read_sectors_rate" =
        some ((ls.getField "disk" "read_sectors" 0 -
          algetD p.last_counter_values "disk.read_sectors" 0) / (t1 - t0)) ∧
      rateOf out "disk" "write_sectors_rate" =
        some ((ls.getField "disk" "write_sectors" 0 -
          algetD p.last_counter_values "disk.write_sectors" 0) / (t1 - t0)) ∧
      rateOf out "network" "rx_bytes_rate" =
        some ((ls.getField "network" "rx_bytes" 0 -
          algetD p.last_counter_values "network.rx_bytes" 0) / (t1 - t0)) ∧
      rateOf out "network" "tx_bytes_rate" =
        some ((ls.getField "network" "tx_bytes" 0 -
          algetD p.last_counter_values "network.tx_bytes" 0) / (t1 - t0)) := by
  simp only [Processor.get_latest_with_derived, hls, hct, hst]
  rw [if_pos hdt]
  refine ⟨_, rfl, ?_, ?_, ?_, ?_⟩ <;>
    simp [rateOf_setField_self, rateOf_setField_ne_field, rateOf_setField_ne_group,
      rateOf_ensureGroup_ne, getField_ensureGroup, getField_setField_ne_group,
      getField_setField_ne_field]

/-- In every branch without usable prior counter data, or with a
non-positive delta, `get_latest_with_derived` produces `zeroRates` of the
stored snapshot. -/
theorem get_latest_zero_cases (p : Processor) (ls : Sample)
    (hls : p.latest_sample = some ls)
    (h : p.last_counter_ts = none ∨ p.last_seen_ts = none ∨
      ∃ t0 t1, p.last_counter_ts = some t0 ∧ p.last_seen_ts = some t1 ∧ t1 - t0 ≤ 0) :
    p.get_latest_with_derived = some (zeroRates ls) := by
  rcases h with hct | hst | ⟨t0, t1, hct, hst, hle⟩
  · cases hst : p.last_seen_ts <;> simp [Processor.get_latest_with_derived, hls, hct, hst]
  · cases hct : p.last_counter_ts <;> simp [Processor.get_latest_with_derived, hls, hct, hst]
  · simp only [Processor.get_latest_with_derived, hls, hct, hst]
    rw [if_neg (not_lt.mpr hle)]

theorem getGroup_isSome_of_rateOf (s : Sample) (g f : String) (v : Rat)
    (h : rateOf s g f = some v) : (s.getGroup g).isSome := by
  cases hg : s.getGroup g with
  | some fs => simp
  | none =>
    rw [rateOf, Sample.getGroupD, hg] at h
    simp [alget] at h

/-! ### Claim C2 -/

/-- Claim C2: with prior counter data and `Δt = latestTimestamp −
priorCounterTimestamp > 0`, each of the four derived rate fields equals
`(current − prior) / Δt`, the current value read from the latest snapshot
with default 0; with no prior counter data, or `Δt ≤ 0`, all four derived
rates are exactly 0. -/
theorem derived_rates_formula (p : Processor) (ls : Sample)
    (hls : p.latest_sample = some ls) :
    (∀ t0 t1, p.last_counter_ts = some t0 → p.last_seen_ts = some t1 → t1 - t0 > 0 →
      ∃ out, p.get_latest_with_derived = some out ∧
        rateOf out "disk" "read_sectors_rate" =
          some ((ls.getField "disk" "read_sectors" 0 -
            algetD p.last_counter_values "disk.read_sectors" 0) / (t1 - t0)) ∧
        rateOf out "disk" "write_sectors_rate" =
          some ((ls.getField "disk" "write_sectors" 0 -
            algetD p.last_counter_values "disk.write_sectors" 0) / (t1 - t0)) ∧
        rateOf out "network" "rx_bytes_rate" =
          some ((ls.getField "network" "rx_bytes" 0 -
            algetD p.last_counter_values "network.rx_bytes" 0) / (t1 - t0)) ∧
        rateOf out "network" "tx_bytes_rate" =
          some ((ls.getField "network" "tx_bytes" 0 -
            algetD p.last_counter_values "network.tx_bytes" 0) / (t1 - t0))) ∧
    ((p.last_counter_ts = none ∨
      ∃ t0 t1, p.last_counter_ts = some t0 ∧ p.last_seen_ts = some t1 ∧ t1 - t0 ≤ 0) →
      ∃ out, p.get_latest_with_derived = some out ∧
        rateOf out "disk" "read_sectors_rate" = some 0 ∧
        rateOf out "disk" "write_sectors_rate" = some 0 ∧
        rateOf out "network" "rx_bytes_rate" = some 0 ∧
        rateOf out "network" "tx_bytes_rate" = some 0) := by
  constructor
  · intro t0 t1 hct hst hdt
    exact get_latest_formula_pos p ls t0 t1 hls hct hst hdt
  · intro h
    have hz : p.get_latest_with_derived = some (zeroRates ls) := by
      rcases h with hct | ⟨t0, t1, hct, hst, hle⟩
      · exact get_latest_zero_cases p ls hls (Or.inl hct)
      · exact get_latest_zero_cases p ls hls (Or.inr (Or.inr ⟨t0, t1, hct, hst, hle⟩))
    obtain ⟨z1, z2, z3, z4⟩ := zeroRates_rates ls
    exact ⟨zeroRates ls, hz, z1, z2, z3, z4⟩

/-- Witness for C2: on the spec's two-snapshot scenario the derived rates
are exactly 10, 5, 50, 30 units per second. -/
theorem derived_rates_formula_witness :
    ∃ out, exP2.get_latest_with_derived = some out ∧
      rateOf out "disk" "read_sectors_rate" = some 10 ∧
      rateOf out "disk" "write_sectors_rate" = some 5 ∧
      rateOf out "network" "rx_bytes_rate" = some 50 ∧
      rateOf out "network" "tx_bytes_rate" = some 30 := by
  obtain ⟨out, hout, r1, r2, r3, r4⟩ :=
    (derived_rates_formula exP2 exS2 (by decide)).1 100 110 (by decide) (by decide)
      (by norm_num)
  have hcv : exP2.last_counter_values =
      [("disk.read_sectors", 1000), ("disk.write_sectors", 500),
       ("network.rx_bytes", 2000), ("network.tx_bytes", 1000)] := by decide
  rw [hcv] at r1 r2 r3 r4
  have e1 : exS2.getField "disk" "read_sectors" 0 = 1100 := by decide
  have e2 : exS2.getField "disk" "write_sectors" 0 = 550 := by decide
  have e3 : exS2.getField "network" "rx_bytes" 0 = 2500 := by decide
  have e4 : exS2.getField "network" "tx_bytes" 0 = 1300 := by decide
  rw [e1] at r1
  rw [e2] at r2
  rw [e3] at r3
  rw [e4] at r4
  have a1 : algetD [("disk.read_sectors", (1000 : Rat)), ("disk.write_sectors", 500),
      ("network.rx_bytes", 2000), ("network.tx_bytes", 1000)] "disk.read_sectors" 0 = 1000 := by
    decide
  have a2 : algetD [("disk.read_sectors", (1000 : Rat)), ("disk.write_sectors", 500),
      ("network.rx_bytes", 2000), ("network.tx_bytes", 1000)] "disk.write_sectors" 0 = 500 := by
    decide
  have a3 : algetD [("disk.read_sectors", (1000 : Rat)), ("disk.write_sectors", 500),
      ("network.rx_bytes", 2000), ("network.tx_bytes", 1000)] "network.rx_bytes" 0 = 2000 := by
    decide
  have a4 : algetD [("disk.read_sectors", (1000 : Rat)), ("disk.write_sectors", 500),
      ("network.rx_bytes", 2000), ("network.tx_bytes", 1000)] "network.tx_bytes" 0 = 1000 := by
    decide
  rw [a1] at r1
  rw [a2] at r2
  rw [a3] at r3
  rw [a4] at r4
  refine ⟨out, hout, ?_, ?_, ?_, ?_⟩
  · rw [r1]; norm_num
  · rw [r2]; norm_num
  · rw [r3]; norm_num
  · rw [r4]; norm_num

/-! ### Claim C10 -/

/-- Claim C10: every non-absent `snapshotWithDerived()` result carries a
disk group holding `read_sectors_rate` and `write_sectors_rate` and a
network group holding `rx_bytes_rate` and `tx_bytes_rate`; the groups are
created in the output when the stored snapshot lacks them. -/
theorem derived_fields_always_present (p : Processor) (out : Sample)
    (h : p.get_latest_with_derived = some out) :
    (out.getGroup "disk").isSome ∧
    (rateOf out "disk" "read_sectors_rate").isSome ∧
    (rateOf out "disk" "write_sectors_rate").isSome ∧
    (out.getGroup "network").isSome ∧
    (rateOf out "network" "rx_bytes_rate").isSome ∧
    (rateOf out "network" "tx_bytes_rate").isSome := by
  cases hl : p.latest_sample with
  | none =>
    rw [(get_latest_none_iff p).mpr hl] at h
    exact absurd h (by simp)
  | some ls =>
    have hrates : (rateOf out "disk" "read_sectors_rate").isSome ∧
        (rateOf out "disk" "write_sectors_rate").isSome ∧
        (rateOf out "network" "rx_bytes_rate").isSome ∧
        (rateOf out "network" "tx_bytes_rate").isSome := by
      cases hct : p.last_counter_ts with
      | none =>
        have hz := get_latest_zero_cases p ls hl (Or.inl hct)
        rw [hz] at h
        obtain rfl : zeroRates ls = out := Option.some.inj h
        obtain ⟨z1, z2, z3, z4⟩ := zeroRates_rates ls
        rw [z1, z2, z3, z4]
        simp
      | some t0 =>
        cases hst : p.last_seen_ts with
        | none =>
          have hz := get_latest_zero_cases p ls hl (Or.inr (Or.inl hst))
          rw [hz] at h
          obtain rfl : zeroRates ls = out := Option.some.inj h
          obtain ⟨z1, z2, z3, z4⟩ := zeroRates_rates ls
          rw [z1, z2, z3, z4]
          simp
        | some t1 =>
          by_cases hdt : t1 - t0 > 0
          · obtain ⟨out1, hout1, r1, r2, r3, r4⟩ :=
              get_latest_formula_pos p ls t0 t1 hl hct hst hdt
            rw [hout1] at h
            obtain rfl : out1 = out := Option.some.inj h
            rw [r1, r2, r3, r4]
            simp
          · have hz := get_latest_zero_cases p ls hl
              (Or.inr (Or.inr ⟨t0, t1, hct, hst, not_lt.mp hdt⟩))
            rw [hz] at h
            obtain rfl : zeroRates ls = out := Option.some.inj h
            obtain ⟨z1, z2, z3, z4⟩ := zeroRates_rates ls
            rw [z1, z2, z3, z4]
            simp
    obtain ⟨h1, h2, h3, h4⟩ := hrates
    obtain ⟨v1, hv1⟩ := Option.isSome_iff_exists.mp h1
    obtain ⟨v3, hv3⟩ := Option.isSome_iff_exists.mp h3
    exact ⟨getGroup_isSome_of_rateOf out "disk" "read_sectors_rate" v1 hv1, h1, h2,
      getGroup_isSome_of_rateOf out "network" "rx_bytes_rate" v3 hv3, h3, h4⟩

/-- Witness for C10: the derived snapshot of the two-snapshot scenario
state carries both groups and all four rate fields. -/
theorem derived_fields_always_present_witness :
    ∃ out, exP2.get_latest_with_derived = some out ∧
      (out.getGroup "disk").isSome ∧ (rateOf out "network" "tx_bytes_rate").isSome := by
  obtain ⟨out, hout, _⟩ :=
    get_latest_formula_pos exP2 exS2 100 110 (by decide) (by decide) (by decide)
      (by norm_num)
  obtain ⟨g1, _, _, _, _, g6⟩ := derived_fields_always_present exP2 out hout
  exact ⟨out, hout, g1, g6⟩

end ServerAnalytics
